import Mathlib

/-!
Verification of the core of the `zesbe-modern` coding-assistant shell.

The development shallowly embeds three components of the TypeScript source:

* the MiniMax wire-protocol adapter and its streaming tool-call delta
  accumulator (`src/ai/minimax.ts`, `MiniMaxProvider.chatStream` and
  `MiniMaxProvider.convertTools`);
* the agent orchestration loop (`handleSubmit` in the TUI entry point);
* the MCP tool gateway (`src/mcp/client.ts`, `MCPManager`).

Modelling conventions:

* Byte streams are modelled after UTF-8 decoding, as lists of characters
  (`TextDecoder` with `stream: true` makes byte-level chunk boundaries
  inside a code point invisible to the rest of the pipeline).
* `JSON.parse` / `JSON.stringify` are modelled by an executable JSON
  parser and renderer over a `Json` inductive.  JSON numbers are kept as
  their source lexemes; no claim below depends on floating-point number
  semantics, only on whether a lexeme denotes zero (for JS truthiness).
* Fields that the endpoint schema types as strings (`content`, `id`,
  `function.name`, `function.arguments`, `finish_reason`) are treated as
  absent when a frame carries a non-string value there, and tool-call
  slot indexes are taken to be canonical JSON naturals, per the schema.
* A response body is a list of successfully delivered chunks together
  with how the read sequence ends: end-of-stream, or a rejected
  `reader.read()` (a mid-stream network failure, possible after any
  prefix of the body), which ends the generator exceptionally.
-/

set_option maxRecDepth 8000

namespace Zesbe

/-- Character-list strings: the core representation used by the stream
parser, so that chunk splitting is plain list concatenation. -/
abbrev Str := List Char

/-- The `{` character (written via its code point). -/
def lbrace : Char := Char.ofNat 123

/-- The `}` character (written via its code point). -/
def rbrace : Char := Char.ofNat 125

/-- JSON values as produced by `JSON.parse`.  Numbers are kept as their
lexemes; object fields keep textual order (with duplicate keys resolved
by last-wins lookup, as `JSON.parse` does). -/
inductive Json where
  | null : Json
  | jbool : Bool → Json
  | jnum : String → Json
  | jstr : String → Json
  | jarr : List Json → Json
  | jobj : List (String × Json) → Json

/-- JSON whitespace accepted between tokens by `JSON.parse`. -/
def isJsonWs (c : Char) : Bool :=
  c = ' ' ∨ c = '\t' ∨ c = '\n' ∨ c = '\r'

def skipWs (cs : Str) : Str := cs.dropWhile isJsonWs

def hexVal? (c : Char) : Option Nat :=
  if '0' ≤ c ∧ c ≤ '9' then some (c.toNat - '0'.toNat)
  else if 'a' ≤ c ∧ c ≤ 'f' then some (c.toNat - 'a'.toNat + 10)
  else if 'A' ≤ c ∧ c ≤ 'F' then some (c.toNat - 'A'.toNat + 10)
  else none

/-- Single-character JSON string escapes. -/
def escChar? (c : Char) : Option Char :=
  if c = '"' then some '"'
  else if c = '\\' then some '\\'
  else if c = '/' then some '/'
  else if c = 'b' then some (Char.ofNat 8)
  else if c = 'f' then some (Char.ofNat 12)
  else if c = 'n' then some '\n'
  else if c = 'r' then some '\r'
  else if c = 't' then some '\t'
  else none

/-- Parse the body of a JSON string (after the opening quote); returns
the decoded characters and the input after the closing quote. -/
def pStrBody : Str → Option (List Char × Str)
  | [] => none
  | '"' :: rest => some ([], rest)
  | '\\' :: rest =>
    match rest with
    | 'u' :: h1 :: h2 :: h3 :: h4 :: rest4 =>
      match hexVal? h1, hexVal? h2, hexVal? h3, hexVal? h4 with
      | some a, some b, some c, some d =>
        match pStrBody rest4 with
        | some (s, r) => some (Char.ofNat (((a * 16 + b) * 16 + c) * 16 + d) :: s, r)
        | none => none
      | _, _, _, _ => none
    | e :: rest2 =>
      match escChar? e with
      | some ec =>
        match pStrBody rest2 with
        | some (s, r) => some (ec :: s, r)
        | none => none
      | none => none
    | [] => none
  | c :: rest =>
    if c.toNat < 32 then none
    else
      match pStrBody rest with
      | some (s, r) => some (c :: s, r)
      | none => none

def takeDigits (cs : Str) : List Char × Str :=
  (cs.takeWhile Char.isDigit, cs.dropWhile Char.isDigit)

/-- Parse a JSON number starting at the head of the input; returns the
lexeme.  Strict JSON grammar: optional minus, integer part without
leading zeros, optional fraction, optional exponent. -/
def pNumber (cs : Str) : Option (String × Str) :=
  let (negPart, cs1) : List Char × Str :=
    match cs with
    | '-' :: r => (['-'], r)
    | _ => ([], cs)
  let (ip, r1) := takeDigits cs1
  if ip = [] then none
  else if 1 < ip.length ∧ ip.head? = some '0' then none
  else
    let (fracPart, r2) : List Char × Str :=
      match r1 with
      | '.' :: r =>
        let (ds, r') := takeDigits r
        if ds = [] then ([], r1) else ('.' :: ds, r')
      | _ => ([], r1)
    -- a '.' not followed by digits is a syntax error in JSON
    match r1 with
    | '.' :: r =>
      if (takeDigits r).1 = [] then none
      else pNumExp (negPart ++ ip ++ fracPart) r2
    | _ => pNumExp (negPart ++ ip ++ fracPart) r2
where
  pNumExp (mant : List Char) (r2 : Str) : Option (String × Str) :=
    match r2 with
    | 'e' :: r | 'E' :: r =>
      let (sgn, r3) : List Char × Str :=
        match r with
        | '+' :: rr => (['+'], rr)
        | '-' :: rr => (['-'], rr)
        | _ => ([], r)
      let (eds, r4) := takeDigits r3
      if eds = [] then none
      else some (String.mk (mant ++ (r2.head?.toList) ++ sgn ++ eds), r4)
    | _ => some (String.mk mant, r2)

/-- Fuel-indexed JSON value parser.  Array/object continuations are
parsed by re-entering the parser on the remainder with the opening
bracket re-prepended, so the recursion is structural on the fuel and
kernel-reducible; fuel `length + 1` always suffices because every
recursive call shrinks the input. -/
def jstep : Nat → Str → Option (Json × Str)
  | 0, _ => none
  | fuel + 1, cs0 =>
    let cs := skipWs cs0
    match cs with
    | [] => none
    | c :: rest =>
      if c = 'n' then
        if rest.take 3 = ['u', 'l', 'l'] then some (.null, rest.drop 3) else none
      else if c = 't' then
        if rest.take 3 = ['r', 'u', 'e'] then some (.jbool true, rest.drop 3) else none
      else if c = 'f' then
        if rest.take 4 = ['a', 'l', 's', 'e'] then some (.jbool false, rest.drop 4) else none
      else if c = '"' then
        match pStrBody rest with
        | some (s, r) => some (.jstr (String.mk s), r)
        | none => none
      else if c = '[' then
        let cs1 := skipWs rest
        match cs1 with
        | ']' :: r => some (.jarr [], r)
        | _ =>
          match jstep fuel cs1 with
          | some (v, r1) =>
            match skipWs r1 with
            | ',' :: r3 =>
              match jstep fuel ('[' :: r3) with
              | some (.jarr vs, r4) => some (.jarr (v :: vs), r4)
              | _ => none
            | ']' :: r3 => some (.jarr [v], r3)
            | _ => none
          | none => none
      else if c = lbrace then
        let cs1 := skipWs rest
        match cs1 with
        | [] => none
        | c1 :: r =>
          if c1 = rbrace then some (.jobj [], r)
          else if c1 = '"' then
            match pStrBody r with
            | some (k, r1) =>
              match skipWs r1 with
              | ':' :: r2 =>
                match jstep fuel r2 with
                | some (v, r3) =>
                  match skipWs r3 with
                  | ',' :: r4 =>
                    match jstep fuel (lbrace :: r4) with
                    | some (.jobj fs, r5) => some (.jobj ((String.mk k, v) :: fs), r5)
                    | _ => none
                  | c2 :: r4 =>
                    if c2 = rbrace then some (.jobj [(String.mk k, v)], r4) else none
                  | [] => none
                | none => none
              | _ => none
            | none => none
          else none
      else if c = '-' ∨ c.isDigit then
        match pNumber cs with
        | some (lex, r) => some (.jnum lex, r)
        | none => none
      else none

/-- `JSON.parse` on a character list: parse one value and require only
whitespace to remain. -/
def jparse (cs : Str) : Option Json :=
  match jstep (cs.length + 1) cs with
  | some (v, rest) => if skipWs rest = [] then some v else none
  | none => none

def jparseS (s : String) : Option Json := jparse s.data

/-- JSON string escaping as performed by `JSON.stringify`. -/
def escJsonChar (c : Char) : List Char :=
  if c = '"' then ['\\', '"']
  else if c = '\\' then ['\\', '\\']
  else if c = '\n' then ['\\', 'n']
  else if c = '\r' then ['\\', 'r']
  else if c = '\t' then ['\\', 't']
  else if c = Char.ofNat 8 then ['\\', 'b']
  else if c = Char.ofNat 12 then ['\\', 'f']
  else if c.toNat < 32 then
    let d1 := c.toNat / 16
    let d2 := c.toNat % 16
    ['\\', 'u', '0', '0',
      (if d1 < 10 then Char.ofNat ('0'.toNat + d1) else Char.ofNat ('a'.toNat + d1 - 10)),
      (if d2 < 10 then Char.ofNat ('0'.toNat + d2) else Char.ofNat ('a'.toNat + d2 - 10))]
  else [c]

def renderStr (s : String) : String :=
  "\"" ++ String.mk (s.data.flatMap escJsonChar) ++ "\""

mutual

/-- `JSON.stringify`; numbers are emitted as their stored lexemes. -/
def jstringify : Json → String
  | .null => "null"
  | .jbool true => "true"
  | .jbool false => "false"
  | .jnum l => l
  | .jstr s => renderStr s
  | .jarr es => "[" ++ renderElems es ++ "]"
  | .jobj fs => String.mk [lbrace] ++ renderFields fs ++ String.mk [rbrace]

def renderElems : List Json → String
  | [] => ""
  | [e] => jstringify e
  | e :: e2 :: es => jstringify e ++ "," ++ renderElems (e2 :: es)

def renderFields : List (String × Json) → String
  | [] => ""
  | [(k, v)] => renderStr k ++ ":" ++ jstringify v
  | (k, v) :: f2 :: fs => renderStr k ++ ":" ++ jstringify v ++ "," ++ renderFields (f2 :: fs)

end

/-! ## JS-style access to parsed frames -/

/-- Last-wins field lookup, matching the object `JSON.parse` builds when
keys repeat. -/
def lookupLast (fs : List (String × Json)) (k : String) : Option Json :=
  fs.foldl (fun acc kv => if kv.1 = k then some kv.2 else acc) none

/-- Property access `j.k` on a parsed JSON value that is known not to be
`null`/`undefined`: objects look up the field, all other values have no
such property (undefined). -/
def jget : Json → String → Option Json
  | .jobj fs, k => lookupLast fs k
  | _, _ => none

/-- Optional-chaining access `o?.k`: `none` (undefined) and `null`
short-circuit to undefined. -/
def optChain (o : Option Json) (k : String) : Option Json :=
  match o with
  | some j => jget j k
  | none => none

/-- Index access `v[0]` on a non-null value: arrays take the head,
objects the field named `"0"`, strings their first character; numbers
and booleans have no such property. -/
def jindex0 : Json → Option Json
  | .jarr es => es.head?
  | .jobj fs => lookupLast fs "0"
  | .jstr s => s.data.head?.map (fun c => .jstr (String.mk [c]))
  | _ => none

def asStr : Option Json → Option String
  | some (.jstr s) => some s
  | _ => none

/-- Whether a JSON number lexeme denotes zero (all mantissa digits are
`'0'`): the only case in which a number is JS-falsy. -/
def isZeroLex (l : String) : Bool :=
  ((l.data.takeWhile (fun c => ¬ (c = 'e' ∨ c = 'E'))).filter Char.isDigit).all (· = '0')

/-- JS truthiness of a JSON value. -/
def jsTruthy : Json → Bool
  | .null => false
  | .jbool b => b
  | .jstr s => s ≠ ""
  | .jnum l => ¬ isZeroLex l
  | .jarr _ => true
  | .jobj _ => true

def natOfDigits? (cs : Str) : Option Nat :=
  if cs ≠ [] ∧ cs.all Char.isDigit then
    some (cs.foldl (fun n c => n * 10 + (c.toNat - '0'.toNat)) 0)
  else none

/-- Decode a tool-call slot index: a canonical JSON natural. -/
def jnatIdx? : Option Json → Option Nat
  | some (.jnum l) => natOfDigits? l.data
  | _ => none

/-! ## The streaming tool-call delta accumulator (`chatStream`) -/

/-- One slot's accumulator: `{ id, name, args }` in the source's
`toolCallsBuffer`. -/
structure ToolCallAcc where
  id : String
  name : String
  args : String

/-- The `Map` from slot index to accumulator, as an insertion-ordered
association list (JS `Map` iteration order is insertion order, and
`Map.set` on an existing key keeps its position). -/
abbrev ToolBuf := List (Nat × ToolCallAcc)

def lookupBuf : ToolBuf → Nat → Option ToolCallAcc
  | [], _ => none
  | (j, a) :: rest, i => if i = j then some a else lookupBuf rest i

/-- `Map.set`: update in place, or append a new key at the end. -/
def setBuf : ToolBuf → Nat → ToolCallAcc → ToolBuf
  | [], i, a => [(i, a)]
  | (j, b) :: rest, i, a => if i = j then (i, a) :: rest else (j, b) :: setBuf rest i a

/-- `existing.args += fragment` (in place). -/
def appendArgs : ToolBuf → Nat → String → ToolBuf
  | [], _, _ => []
  | (j, b) :: rest, i, s =>
    if i = j then (j, { b with args := b.args ++ s }) :: rest else (j, b) :: appendArgs rest i s

/-- The events `chatStream` yields (`StreamChunk` in `ai/types.ts`;
`tool_result` is never produced by this provider). -/
inductive StreamEvent where
  | text : String → StreamEvent
  | toolCall : String → String → Json → StreamEvent
  | done : StreamEvent
  | error : String → StreamEvent

/-- Process one element `tc` of a `delta.tool_calls` array.  `none`
models a thrown `TypeError` (property access on `null`), which aborts
the rest of the line's processing. -/
def procDelta (buf : ToolBuf) (tc : Json) : Option ToolBuf :=
  match tc with
  | .null => none
  | .jobj _ =>
    match jnatIdx? (jget tc "index") with
    | none => some buf
    | some i =>
      let existing := lookupBuf buf i
      let fn := jget tc "function"
      let fname := asStr (optChain fn "name")
      let farg := asStr (optChain fn "arguments")
      let idTruthy : Option String :=
        match asStr (jget tc "id") with
        | some s => if s = "" then none else some s
        | none => none
      match idTruthy with
      | some idv =>
        let nm :=
          match fname with
          | some s =>
            if s ≠ "" then s
            else match existing with
              | some a => if a.name ≠ "" then a.name else ""
              | none => ""
          | none =>
            match existing with
            | some a => if a.name ≠ "" then a.name else ""
            | none => ""
        let ar := match farg with | some s => s | none => ""
        some (setBuf buf i ⟨idv, nm, ar⟩)
      | none =>
        match existing, farg with
        | some _, some s => if s = "" then some buf else some (appendArgs buf i s)
        | _, _ => some buf
  | _ => some buf

/-- Fold `procDelta` over a `tool_calls` array; the boolean records
whether a `TypeError` aborted the iteration (keeping the partial
buffer updates, as the caught exception does). -/
def procDeltas (buf : ToolBuf) : List Json → ToolBuf × Bool
  | [] => (buf, false)
  | tc :: rest =>
    match procDelta buf tc with
    | some b => procDeltas b rest
    | none => (buf, true)

/-- Finalization at `finish_reason == "tool_calls"`: emit one event per
buffered slot in iteration (= insertion) order; `JSON.parse` of
`args || "{}"`; a parse failure throws and stops the remaining
emissions (the line's catch swallows it). -/
def finalizeCalls : ToolBuf → List StreamEvent
  | [] => []
  | (_, a) :: rest =>
    match jparse (if a.args = "" then "\x7b\x7d".data else a.args.data) with
    | some v => .toolCall a.id a.name v :: finalizeCalls rest
    | none => []

/-- Dispatch on the (truthiness / iterability of the) `tool_calls`
field: arrays are iterated; truthy non-iterables throw (second
component `true`); falsy values and iterable strings are inert. -/
def tcStep (buf : ToolBuf) : Option Json → ToolBuf × Bool
  | some (.jarr tcs) => procDeltas buf tcs
  | some (.jobj _) => (buf, true)
  | some (.jbool b) => (buf, b)
  | some (.jnum l) => (buf, ¬ isZeroLex l)
  | _ => (buf, false)

/-- `if (delta?.content) yield text(...)`: a text event for a truthy
content fragment, emitted immediately. -/
def contentEvents (delta : Option Json) : List StreamEvent :=
  match optChain delta "content" with
  | some (.jstr s) => if s = "" then [] else [.text s]
  | _ => []

/-- The finalization events of one frame: emitted only under the
`"tool_calls"` finish reason. -/
def finishEvents (c0 : Option Json) (buf : ToolBuf) : List StreamEvent :=
  if asStr (optChain c0 "finish_reason") = some "tool_calls" then finalizeCalls buf else []

/-- Process one successfully parsed `data:` frame.  Mirrors the body of
the `try` block: text event, tool-call accumulation, finalization on
the `"tool_calls"` finish reason; any modelled exception keeps the
events yielded and buffer updates made so far. -/
def processParsed (buf : ToolBuf) (j : Json) : ToolBuf × List StreamEvent :=
  match j with
  | .jobj _ =>
    match jget j "choices" with
    | none => (buf, [])
    | some .null => (buf, [])
    | some choices =>
      let c0 := jindex0 choices
      let delta := optChain c0 "delta"
      let stepped := tcStep buf (optChain delta "tool_calls")
      if stepped.2 then (stepped.1, contentEvents delta)
      else (stepped.1, contentEvents delta ++ finishEvents c0 stepped.1)
  | _ => (buf, [])

/-- JS `String.prototype.trim` whitespace (the characters relevant to
this wire format). -/
def isTrimWs (c : Char) : Bool :=
  c = ' ' ∨ c = '\t' ∨ c = '\n' ∨ c = '\r' ∨ c = Char.ofNat 11 ∨ c = Char.ofNat 12

def jsTrim (cs : Str) : Str :=
  ((cs.dropWhile isTrimWs).reverse.dropWhile isTrimWs).reverse

/-- Process one complete line of the event stream: skip blanks and the
`[DONE]` sentinel, parse the payload of `data: ` lines (silently
dropping lines that fail to parse), ignore everything else. -/
def processLine (buf : ToolBuf) (line : Str) : ToolBuf × List StreamEvent :=
  let t := jsTrim line
  if t = [] ∨ t = "data: [DONE]".data then (buf, [])
  else if "data: ".data.isPrefixOf t then
    match jparse (t.drop 6) with
    | some j => processParsed buf j
    | none => (buf, [])
  else (buf, [])

def processLines (buf : ToolBuf) : List Str → ToolBuf × List StreamEvent
  | [] => (buf, [])
  | l :: rest =>
    let step1 := processLine buf l
    let step2 := processLines step1.1 rest
    (step2.1, step1.2 ++ step2.2)

/-- `buffer.split("\n")` with the last piece held back:
returns the complete lines and the trailing remainder. -/
def splitOnNl : Str → List Str × Str
  | [] => ([], [])
  | c :: rest =>
    let p := splitOnNl rest
    if c = '\n' then ([] :: p.1, p.2)
    else
      match p.1 with
      | [] => ([], c :: p.2)
      | l :: ls => ((c :: l) :: ls, p.2)

/-- Per-stream mutable state of `chatStream`: the carried-over partial
line and the tool-call accumulator map. -/
structure SState where
  buffer : Str
  toolCallsBuffer : ToolBuf

/-- Consume one decoded chunk: append to the buffer, split off the
complete lines, process them, keep the remainder. -/
def feed (s : SState) (chunk : Str) : SState × List StreamEvent :=
  let p := splitOnNl (s.buffer ++ chunk)
  let q := processLines s.toolCallsBuffer p.1
  (⟨p.2, q.1⟩, q.2)

def feedAll (s : SState) : List Str → SState × List StreamEvent
  | [] => (s, [])
  | c :: rest =>
    let step1 := feed s c
    let step2 := feedAll step1.1 rest
    (step2.1, step1.2 ++ step2.2)

/-- The whole successful-streaming path of `chatStream`: fresh state,
all chunks consumed, then the final `done` event (the trailing
incomplete line, if any, is never parsed). -/
def runBody (chunks : List Str) : List StreamEvent :=
  (feedAll ⟨[], []⟩ chunks).2 ++ [.done]

/-- How the sequence of `reader.read()` calls ends after delivering its
chunks: either a resolved `{done: true}` (end of stream), or a
rejection — the promise failure of a mid-stream network error.  The
chunks delivered before the failing read were already processed, and
the rejection can occur after any prefix of the body, so a body paired
with `failure` represents every mid-stream failure point. -/
inductive ReadEnd where
  | eof : ReadEnd
  | failure : String → ReadEnd

/-- How the `chatStream` generator itself terminates: a normal return,
or an exception escaping it (the `try`/`finally` has no catch, so a
rejected read releases the reader lock and then propagates — the final
`yield done` is never reached and no further event is produced). -/
inductive StreamTermination where
  | normal : StreamTermination
  | thrown : String → StreamTermination

/-- The HTTP response as `chatStream` observes it: status, the error
body text (for the failure path), and the optional readable byte
stream together with the way its read sequence ends. -/
structure HttpResponse where
  ok : Bool
  status : Nat
  bodyText : String
  body : Option (List Str × ReadEnd)

def apiErrorMsg (r : HttpResponse) : String :=
  "MiniMax API error: " ++ toString r.status ++ " - " ++ r.bodyText

/-- `MiniMaxProvider.chatStream`, from the response onwards: the events
the generator yields, paired with how it terminates.  A non-2xx status
yields a single error event; a missing body yields a single error
event; a fully read body is parsed and the stream ends with `done`; a
mid-stream read rejection ends the generator exceptionally after the
events of the delivered chunks, with no terminal event. -/
def chatStream (r : HttpResponse) : List StreamEvent × StreamTermination :=
  if r.ok = false then ([.error (apiErrorMsg r)], .normal)
  else
    match r.body with
    | none => ([.error "No response body"], .normal)
    | some (chunks, .eof) => (runBody chunks, .normal)
    | some (chunks, .failure e) => ((feedAll ⟨[], []⟩ chunks).2, .thrown e)

/-! ## Frame-level runner and frame builders (used to state the
accumulator claims, which quantify over tool-call delta frames) -/

/-- Run a list of already-parsed frames, as `chatStream` does for the
frames decoded from successive `data:` lines. -/
def processFrames (buf : ToolBuf) : List Json → ToolBuf × List StreamEvent
  | [] => (buf, [])
  | f :: rest =>
    let step1 := processParsed buf f
    let step2 := processFrames step1.1 rest
    (step2.1, step1.2 ++ step2.2)

/-- A tool-call delta entry `{index, id?, function: {name?, arguments?}}`. -/
def mkTCDelta (idxLex : String) (idv nm ar : Option String) : Json :=
  .jobj ([("index", .jnum idxLex)]
    ++ (match idv with | some i => [("id", .jstr i)] | none => [])
    ++ [("function", .jobj
        ((match nm with | some n => [("name", .jstr n)] | none => [])
          ++ (match ar with | some a => [("arguments", .jstr a)] | none => [])))])

/-- A streamed frame carrying exactly one tool-call delta. -/
def mkTCFrame (idxLex : String) (idv nm ar : Option String) : Json :=
  .jobj [("choices", .jarr [.jobj
    [("delta", .jobj [("tool_calls", .jarr [mkTCDelta idxLex idv nm ar])]),
     ("finish_reason", .null)]])]

/-- A frame signalling turn completion with the "tool_calls" finish
reason. -/
def mkFinishFrame : Json :=
  .jobj [("choices", .jarr [.jobj
    [("delta", .jobj []), ("finish_reason", .jstr "tool_calls")]])]

/-! ## The MCP tool gateway (`MCPManager` in `src/mcp/client.ts`) -/

/-- A provider-agnostic tool definition (`ToolDefinition` in
`ai/types.ts`); the JSON-Schema `parameters` value is kept as JSON. -/
structure ToolDefinition where
  name : String
  description : String
  parameters : Json

/-- A connected MCP client handle: its (already qualified) tool list
and the behaviour of `client.callTool` — a returned result object or a
thrown error message. -/
structure MCPClientStub where
  tools : List ToolDefinition
  call : String → Json → Except String Json

/-- The gateway state: the `clients` map (insertion-ordered, keyed by
server name) and the `initialized` flag. -/
structure MCPManagerState where
  clients : List (String × MCPClientStub)
  initialized : Bool

/-- Characters the `.` regex class matches (everything except line
terminators). -/
def isDotClassChar (c : Char) : Bool :=
  ¬ (c = '\n' ∨ c = '\r' ∨ c.toNat = 0x2028 ∨ c.toNat = 0x2029)

/-- `toolName.match(/^mcp_([^_]+)_(.+)$/)`: the server segment is the
maximal nonempty underscore-free run after `mcp_`, followed by an
underscore and a nonempty tool segment without line terminators. -/
def parseMcp (cs : Str) : Option (Str × Str) :=
  match cs with
  | 'm' :: 'c' :: 'p' :: '_' :: rest =>
    let sv := rest.takeWhile (fun c => c ≠ '_')
    match sv, rest.dropWhile (fun c => c ≠ '_') with
    | [], _ => none
    | _, '_' :: t =>
      if t ≠ [] ∧ t.all isDotClassChar then some (sv, t) else none
    | _, _ => none
  | _ => none

/-- `c.text || JSON.stringify(c)` for one content part (parts are
assumed non-`null`, per the MCP result schema). -/
def contentPartText (c : Json) : String :=
  match jget c "text" with
  | some (.jstr s) => if s = "" then jstringify c else s
  | _ => jstringify c

/-- Flatten a subprocess result into one text block: a (truthy) array
`content` is joined on newlines, everything else is serialized. -/
def flattenContent (r : Json) : String :=
  match jget r "content" with
  | some (.jarr cs) => String.intercalate "\n" (cs.map contentPartText)
  | _ => jstringify r

/-- `MCPManager.callTool`: total, returning a text block; all three
failure shapes are descriptive strings, never exceptions. -/
def callTool (st : MCPManagerState) (toolName : String) (args : Json) : String :=
  match parseMcp toolName.data with
  | none => "Invalid MCP tool name: " ++ toolName
  | some (sv, t) =>
    let serverName := String.mk sv
    match st.clients.lookup serverName with
    | none => "MCP server not connected: " ++ serverName
    | some cl =>
      match cl.call (String.mk t) args with
      | .ok r => flattenContent r
      | .error e => "MCP tool error: " ++ e

/-- A tool descriptor as returned by the subprocess's `listTools`. -/
structure MCPRawTool where
  name : String
  description : Option String
  inputSchema : Json

/-- `connectServer`'s tool wrapping: qualified name
`mcp_<server>_<tool>` and a description prefixed with the server. -/
def qualifyTool (server : String) (t : MCPRawTool) : ToolDefinition :=
  { name := "mcp_" ++ server ++ "_" ++ t.name
    description := "[MCP:" ++ server ++ "] " ++
      (match t.description with
        | some d => if d = "" then t.name else d
        | none => t.name)
    parameters := t.inputSchema }

/-- The outcome of spawning + handshaking + `listTools` for one server:
either the raw tool list and call behaviour, or a thrown error. -/
abbrev ConnectOutcome := Except String (List MCPRawTool × (String → Json → Except String Json))

/-- `MCPManager.connectServer`: skip if already connected; otherwise
store the qualified handle, or re-throw the connect error (second
component). -/
def connectServer (st : MCPManagerState) (name : String) (outcome : ConnectOutcome) :
    MCPManagerState × Option String :=
  if (st.clients.lookup name).isSome then (st, none)
  else
    match outcome with
    | .ok (raws, callB) =>
      ({ st with clients := st.clients ++ [(name, ⟨raws.map (qualifyTool name), callB⟩)] }, none)
    | .error e => (st, some e)

structure MCPServerConfig where
  command : String
  args : List String
  env : List (String × String)
  enabled : Option Bool

/-- `serverConfig.enabled !== false`. -/
def enabledCfg (c : MCPServerConfig) : Bool := c.enabled ≠ some false

/-- `MCPManager.initialize`: no-op when already initialized; otherwise
try to connect every enabled configured server, swallowing per-server
connect errors, then set the flag.  Total: no failure of a single
connect can make it fail. -/
def initializeManager (st : MCPManagerState) (configs : List (String × MCPServerConfig))
    (connectOutcome : String → MCPServerConfig → ConnectOutcome) : MCPManagerState :=
  if st.initialized then st
  else
    let st1 := configs.foldl
      (fun s p =>
        if enabledCfg p.2 then (connectServer s p.1 (connectOutcome p.1 p.2)).1 else s)
      st
    { st1 with initialized := true }

def getConnectedServers (st : MCPManagerState) : List String := st.clients.map Prod.fst

def getTools (st : MCPManagerState) : List ToolDefinition :=
  st.clients.flatMap (fun p => p.2.tools)

/-! ## Tool sanitization for the wire request
(`MiniMaxProvider.convertTools` / `sanitizeParameters`) -/

def isSafeNameChar (c : Char) : Bool :=
  ('a' ≤ c ∧ c ≤ 'z') ∨ ('A' ≤ c ∧ c ≤ 'Z') ∨ ('0' ≤ c ∧ c ≤ '9') ∨ c = '_' ∨ c = '-'

/-- `tool.name.replace(/[^a-zA-Z0-9_-]/g, "_")`. -/
def sanitizeName (s : String) : String :=
  String.mk (s.data.map (fun c => if isSafeNameChar c then c else '_'))

/-- `.slice(0, 1000)` (JS code units modelled as characters). -/
def truncateDesc (s : String) : String := String.mk (s.data.take 1000)

/-- `MiniMaxProvider.sanitizeParameters`: guarantee a well-shaped JSON
schema object. -/
def sanitizeParameters (p : Json) : Json :=
  match p with
  | .jobj fs =>
    .jobj
      ([("type",
          match lookupLast fs "type" with
          | some v => if jsTruthy v then v else .jstr "object"
          | none => .jstr "object")]
        ++ [("properties",
          match lookupLast fs "properties" with
          | some (.jobj pf) => .jobj pf
          | some (.jarr es) => .jarr es
          | _ => .jobj [])]
        ++ [("required",
          match lookupLast fs "required" with
          | some (.jarr es) => .jarr es
          | _ => .jarr [])]
        ++ (match lookupLast fs "additionalProperties" with
          | some v => [("additionalProperties", v)]
          | none => []))
  | .jarr _ => .jobj [("type", .jstr "object"), ("properties", .jobj []), ("required", .jarr [])]
  | _ => .jobj [("type", .jstr "object"), ("properties", .jobj []), ("required", .jarr [])]

/-- A sanitized wire tool (`OpenAITool.function`). -/
structure OpenAIToolFn where
  name : String
  description : String
  parameters : Json

/-- The per-tool conversion inside `convertTools`. -/
def convertTool (t : ToolDefinition) : OpenAIToolFn :=
  { name := sanitizeName t.name
    description := truncateDesc (if t.description = "" then t.name else t.description)
    parameters := sanitizeParameters t.parameters }

/-- `MiniMaxProvider.convertTools`: `undefined` for a missing or empty
list; otherwise drop tools with a falsy name or description and
sanitize the rest. -/
def convertTools (tools : Option (List ToolDefinition)) : Option (List OpenAIToolFn) :=
  match tools with
  | none => none
  | some ts =>
    if ts.length = 0 then none
    else some ((ts.filter (fun t => t.name ≠ "" ∧ t.description ≠ "")).map convertTool)

/-- The `tools` field of the outgoing request body, as both `chat` and
`chatStream` build it (`if (request.tools) body.tools = ...`; any
array, even empty, is truthy). -/
def requestWireTools (tools : Option (List ToolDefinition)) : Option (List OpenAIToolFn) :=
  match tools with
  | some ts => convertTools (some ts)
  | none => none

/-! ## The agent orchestration loop (`handleSubmit` in the TUI) -/

inductive Role where
  | system | user | assistant | tool
deriving DecidableEq

/-- A tool-call request carried on an assistant message. -/
structure ToolCallReq where
  id : String
  name : String
  arguments : Json

/-- A provider-agnostic chat message (`Message` in `ai/types.ts`). -/
structure AIMessage where
  role : Role
  content : String
  toolCallId : Option String := none
  toolCalls : List ToolCallReq := []

/-- The result of a built-in tool execution (`executeTools`). -/
structure BuiltinResult where
  success : Bool
  output : Option String
  error : Option String

/-- `result[0].success ? result[0].output || "(no output)" : ...`. -/
def formatBuiltin (r : BuiltinResult) : String :=
  if r.success then
    match r.output with
    | some o => if o = "" then "(no output)" else o
    | none => "(no output)"
  else "Error: " ++ (r.error.getD "undefined")

/-- One executed tool call as recorded in `toolResults`. -/
structure ToolResultEntry where
  id : String
  name : String
  output : String
  arguments : Json

/-- The accumulator of the `for await` loop over stream chunks. -/
structure ConsumeAcc where
  fullText : String
  results : List ToolResultEntry
  hasToolCalls : Bool
  err : Option String

/-- Dispatch one collected tool call: MCP-prefixed names go to the
gateway, everything else to the built-in executor. -/
def dispatchTool (gw : MCPManagerState) (bexec : String → Json → BuiltinResult)
    (nm : String) (args : Json) : String :=
  if "mcp_".data.isPrefixOf nm.data then callTool gw nm args
  else formatBuiltin (bexec nm args)

/-- The `for await (const chunk of generator)` body: text chunks extend
the running buffer, tool-call chunks (in YOLO mode) are executed
immediately and recorded, a (non-empty) error chunk breaks out of the
consumption loop, `done` chunks have no branch. -/
def consumeStream (yolo : Bool) (gw : MCPManagerState) (bexec : String → Json → BuiltinResult)
    (acc : ConsumeAcc) : List StreamEvent → ConsumeAcc
  | [] => acc
  | ev :: rest =>
    match ev with
    | .text s => consumeStream yolo gw bexec { acc with fullText := acc.fullText ++ s } rest
    | .toolCall id nm args =>
      if yolo then
        consumeStream yolo gw bexec
          { acc with
            results := acc.results ++ [⟨id, nm, dispatchTool gw bexec nm args, args⟩]
            hasToolCalls := true } rest
      else consumeStream yolo gw bexec acc rest
    | .error e =>
      if e = "" then consumeStream yolo gw bexec acc rest
      else { acc with err := some e }
    | .done => consumeStream yolo gw bexec acc rest

/-- The assistant message pushed to `aiMessages` after a turn with tool
calls: the buffered text and the executed calls' ids/names/arguments. -/
def mkAssistantMsg (text : String) (results : List ToolResultEntry) : AIMessage :=
  { role := .assistant
    content := text
    toolCalls := results.map (fun r => ⟨r.id, r.name, r.arguments⟩) }

/-- The tool message pushed for one executed call: its output as
content, its id as `toolCallId`. -/
def mkToolMsg (r : ToolResultEntry) : AIMessage :=
  { role := .tool, content := r.output, toolCallId := some r.id }

/-- One model behaviour: the event stream the provider yields for a
given message history. -/
abbrev ModelBehavior := List AIMessage → List StreamEvent

/-- The tool-calling `while` loop, indexed by the remaining iteration
budget (`maxIterations − iteration`).  Each entry consumes one stream;
a turn with executed tool calls appends the assistant message and its
tool results and loops, any other turn ends the loop.  The second
component counts loop entries (`ModelTurn`s). -/
def runLoopAux (behavior : ModelBehavior) (yolo : Bool) (gw : MCPManagerState)
    (bexec : String → Json → BuiltinResult) : Nat → List AIMessage → List AIMessage × Nat
  | 0, msgs => (msgs, 0)
  | fuel + 1, msgs =>
    let acc := consumeStream yolo gw bexec ⟨"", [], false, none⟩ (behavior msgs)
    if acc.hasToolCalls && !acc.results.isEmpty then
      let next := runLoopAux behavior yolo gw bexec fuel
        (msgs ++ mkAssistantMsg acc.fullText acc.results :: acc.results.map mkToolMsg)
      (next.1, next.2 + 1)
    else (msgs, 1)

/-- The loop as `handleSubmit` runs it: `maxIterations = 10`. -/
def runLoop (behavior : ModelBehavior) (yolo : Bool) (gw : MCPManagerState)
    (bexec : String → Json → BuiltinResult) (msgs : List AIMessage) : List AIMessage × Nat :=
  runLoopAux behavior yolo gw bexec 10 msgs

/-! ## Auxiliary definitions used to state the claims -/

/-- Terminal events of a stream (`done` / `error`). -/
def isTerminal : StreamEvent → Bool
  | .done => true
  | .error _ => true
  | _ => false

/-- The ids of the `toolCall` events of a stream, in emission order. -/
def toolCallIds : List StreamEvent → List String
  | [] => []
  | .toolCall i _ _ :: rest => i :: toolCallIds rest
  | _ :: rest => toolCallIds rest

/-- Concatenation of a slot's argument-text fragments (an absent
fragment contributes the empty string, exactly as the accumulator's
`|| ""` does). -/
def catFrags (l : List (Option String)) : String :=
  l.foldr (fun o acc => o.getD "" ++ acc) ""

def isOkOutcome : ConnectOutcome → Bool
  | .ok _ => true
  | .error _ => false

/-- The shape of the message blocks the orchestration loop appends to
`aiMessages`: each round contributes one assistant message carrying the
turn's tool calls, immediately followed by that round's tool-result
messages. -/
inductive ThreadedBlocks : List AIMessage → Prop
  | nil : ThreadedBlocks []
  | block (text : String) (results : List ToolResultEntry) (rest : List AIMessage) :
      ThreadedBlocks rest →
      ThreadedBlocks (mkAssistantMsg text results :: results.map mkToolMsg ++ rest)

/-! ## Concrete scenario inputs for witnesses and counterexamples -/

/-- A stream body whose frames assign slot 1 (id `"b"`) before slot 0
(id `"a"`), then finish with the `tool_calls` reason. -/
def outOfOrderBody : Str :=
  ("data: \x7b\"choices\":[\x7b\"delta\":\x7b\"tool_calls\":[\x7b\"index\":1,\"id\":\"b\",\"function\":\x7b\"name\":\"beta\"\x7d\x7d]\x7d\x7d]\x7d\n"
    ++ "data: \x7b\"choices\":[\x7b\"delta\":\x7b\"tool_calls\":[\x7b\"index\":0,\"id\":\"a\",\"function\":\x7b\"name\":\"alpha\"\x7d\x7d]\x7d,\"finish_reason\":\"tool_calls\"\x7d]\x7d\n").data

/-- Frames for slot 0 in which a second frame re-introduces an id:
fragments `{"a"`, (none), `:1}` concatenate to the JSON text
`{"a":1}`. -/
def reinitFrames : List Json :=
  [mkTCFrame "0" (some "c1") (some "read") (some "\x7b\"a\""),
   mkTCFrame "0" (some "c2") none none,
   mkTCFrame "0" none none (some ":1\x7d"),
   mkFinishFrame]

/-- A gateway state with a server `"a"` and a server `"a_b"` both
connected; `"a"` answers every call with the text `"hello"`. -/
def underscoreState : MCPManagerState :=
  { clients :=
      [("a", MCPClientStub.mk []
          (fun _ _ => Except.ok (.jobj [("content", .jarr [.jobj [("text", .jstr "hello")]])]))),
       ("a_b", MCPClientStub.mk [qualifyTool "a_b" ⟨"t", none, .null⟩]
          (fun _ _ => Except.ok (.jobj [("content", .jarr [.jobj [("text", .jstr "from a_b")]])])))]
    initialized := true }

/-- The segment of a server name before its first underscore — what
`callTool`'s regex will recover as the server from a qualified name. -/
def serverPart (s : String) : Str := s.data.takeWhile (fun c => c ≠ '_')

/-- A model that requests one `read_file` call on the first turn and
answers with text afterwards. -/
def demoBehavior : ModelBehavior := fun msgs =>
  if msgs.length ≤ 1 then [.toolCall "t1" "read_file" (.jobj []), .done]
  else [.text "hi", .done]

def demoExec : String → Json → BuiltinResult := fun _ _ => ⟨true, some "out", none⟩

def demoInit : List AIMessage := [{ role := .user, content := "go" }]

def demoGateway : MCPManagerState := { clients := [], initialized := false }

/-- Two configured servers, one of which fails to spawn. -/
def demoConfigs : List (String × MCPServerConfig) :=
  [("good", ⟨"node", ["server.js"], [], none⟩),
   ("bad", ⟨"nonexistent-cmd", [], [], some true⟩)]

def demoConnect : String → MCPServerConfig → ConnectOutcome := fun n _ =>
  if n = "good" then
    .ok ([⟨"echo", some "echoes back", .jobj []⟩],
      fun _ _ => .ok (.jobj [("content", .jarr [])]))
  else .error "spawn nonexistent-cmd ENOENT"

/-! # Theorems -/

/-- The loop-entry count is bounded by the fuel. -/
theorem runLoopAux_count_le (behavior : ModelBehavior) (yolo : Bool) (gw : MCPManagerState)
    (bexec : String → Json → BuiltinResult) :
    ∀ fuel msgs, (runLoopAux behavior yolo gw bexec fuel msgs).2 ≤ fuel := by
  intro fuel
  induction fuel with
  | zero => intro msgs; simp [runLoopAux]
  | succ n ih =>
    intro msgs
    simp only [runLoopAux]
    split
    · exact Nat.succ_le_succ (ih _)
    · exact Nat.succ_le_succ (Nat.zero_le n)

/-- C5: for every input and every model behaviour — including one that
requests further tool calls on every turn — the agent loop performs at
most 10 model-turn iterations (stream consumptions) and then
terminates; `runLoop` is a total function whose turn counter never
exceeds the fixed ceiling of 10. -/
theorem loop_terminates_within_ten_turns (behavior : ModelBehavior) (yolo : Bool)
    (gw : MCPManagerState) (bexec : String → Json → BuiltinResult) (msgs : List AIMessage) :
    (runLoop behavior yolo gw bexec msgs).2 ≤ 10 :=
  runLoopAux_count_le behavior yolo gw bexec 10 msgs

/-- C6: `callTool` is total (it returns a text block for every
qualified name, argument map and gateway state — exceptions from the
subprocess are caught), and each failure shape yields its descriptive
error string: a name not matching `mcp_<server>_<tool>`, a server with
no live handle, and a subprocess-level failure. -/
theorem callTool_total_error_texts (st : MCPManagerState) (name : String) (args : Json) :
    (parseMcp name.data = none → callTool st name args = "Invalid MCP tool name: " ++ name)
    ∧ (∀ sv t, parseMcp name.data = some (sv, t) →
        st.clients.lookup (String.mk sv) = none →
        callTool st name args = "MCP server not connected: " ++ String.mk sv)
    ∧ (∀ sv t cl e, parseMcp name.data = some (sv, t) →
        st.clients.lookup (String.mk sv) = some cl →
        cl.call (String.mk t) args = .error e →
        callTool st name args = "MCP tool error: " ++ e) := by
  refine ⟨fun h => ?_, fun sv t h1 h2 => ?_, fun sv t cl e h1 h2 h3 => ?_⟩
  · simp [callTool, h]
  · simp [callTool, h1, h2]
  · simp [callTool, h1, h2, h3]

/-- Witness for C6: the spec's own scenario
`callTool("mcp_unknownserver_foo", {})` on a gateway with no connected
servers returns the textual not-connected error. -/
theorem callTool_total_error_texts_witness :
    callTool ⟨[], false⟩ "mcp_unknownserver_foo" (Json.jobj []) =
      "MCP server not connected: unknownserver" :=
  (callTool_total_error_texts ⟨[], false⟩ "mcp_unknownserver_foo" (Json.jobj [])).2.1
    "unknownserver".data "foo".data rfl rfl

/-- C10: the tools field of every outgoing chat/chatStream request:
a `ToolDefinition` with an empty name or empty description is omitted
entirely (everything sent originates from a tool with both fields
non-empty, and exactly the valid tools are sent), while every tool that
is sent has its name restricted to `[a-zA-Z0-9_-]` and its description
truncated to 1000 characters. -/
theorem invalid_tools_filtered_valid_sanitized (ts : List ToolDefinition) :
    (∀ o ∈ ((requestWireTools (some ts)).getD []),
        ∃ t ∈ ts, t.name ≠ "" ∧ t.description ≠ "" ∧ o = convertTool t)
    ∧ (∀ t ∈ ts, t.name ≠ "" → t.description ≠ "" →
        convertTool t ∈ ((requestWireTools (some ts)).getD []))
    ∧ ((requestWireTools (some ts)).getD []).length =
        (ts.filter (fun t => t.name ≠ "" ∧ t.description ≠ "")).length
    ∧ (∀ o ∈ ((requestWireTools (some ts)).getD []),
        o.name.data.all isSafeNameChar = true ∧ o.description.length ≤ 1000) := by
  have hres : ((requestWireTools (some ts)).getD []) =
      (ts.filter (fun t => t.name ≠ "" ∧ t.description ≠ "")).map convertTool := by
    by_cases h : ts.length = 0
    · rcases List.length_eq_zero.mp h with rfl
      simp [requestWireTools, convertTools]
    · simp [requestWireTools, convertTools, h]
  rw [hres]
  refine ⟨?_, ?_, ?_, ?_⟩
  · intro o ho
    rcases List.mem_map.mp ho with ⟨t, ht, rfl⟩
    rcases List.mem_filter.mp ht with ⟨htmem, hcond⟩
    have hcond' := of_decide_eq_true hcond
    exact ⟨t, htmem, hcond'.1, hcond'.2, rfl⟩
  · intro t ht h1 h2
    exact List.mem_map_of_mem _ (List.mem_filter.mpr ⟨ht, decide_eq_true ⟨h1, h2⟩⟩)
  · exact List.length_map _ _
  · intro o ho
    rcases List.mem_map.mp ho with ⟨t, _, rfl⟩
    constructor
    · show (sanitizeName t.name).data.all isSafeNameChar = true
      have : (sanitizeName t.name).data = t.name.data.map
          (fun c => if isSafeNameChar c then c else '_') := rfl
      rw [this, List.all_eq_true]
      intro c hc
      rcases List.mem_map.mp hc with ⟨c0, _, rfl⟩
      by_cases hs : isSafeNameChar c0 = true
      · rw [if_pos hs]; exact hs
      · rw [if_neg hs]; decide
    · show (truncateDesc _).length ≤ 1000
      show (List.take 1000 _).length ≤ 1000
      simp

/-- Witness for C10: a tool with an empty name is dropped, a tool with
messy name/long description is sent sanitized. -/
theorem invalid_tools_filtered_valid_sanitized_witness :
    (convertTool ⟨"read file!", "d", Json.null⟩ ∈
      ((requestWireTools (some [⟨"", "x", Json.null⟩, ⟨"read file!", "d", Json.null⟩])).getD []))
    ∧ ((requestWireTools (some [⟨"", "x", Json.null⟩, ⟨"read file!", "d", Json.null⟩])).getD
        []).length = 1 :=
  ⟨(invalid_tools_filtered_valid_sanitized [⟨"", "x", Json.null⟩, ⟨"read file!", "d", Json.null⟩]).2.1
      ⟨"read file!", "d", Json.null⟩ (by simp) (by decide) (by decide),
    by rfl⟩

theorem lookup_append_of_some {α : Type} (l l' : List (String × α)) (n : String) (v : α)
    (h : l.lookup n = some v) : (l ++ l').lookup n = some v := by
  induction l with
  | nil => simp [List.lookup] at h
  | cons p rest ih =>
    rcases p with ⟨k, w⟩
    simp only [List.cons_append, List.lookup]
    simp only [List.lookup] at h
    cases hk : (n == k) with
    | true => simpa [hk] using h
    | false => simp only [hk] at h ⊢; exact ih h

theorem lookup_append_of_none {α : Type} (l l' : List (String × α)) (n : String)
    (h : l.lookup n = none) : (l ++ l').lookup n = l'.lookup n := by
  induction l with
  | nil => simp
  | cons p rest ih =>
    rcases p with ⟨k, w⟩
    simp only [List.cons_append, List.lookup]
    simp only [List.lookup] at h
    cases hk : (n == k) with
    | true => simp [hk] at h
    | false => simp only [hk] at h ⊢; exact ih h

theorem mem_keys_of_lookup_isSome {α : Type} (l : List (String × α)) (n : String)
    (h : (l.lookup n).isSome = true) : n ∈ l.map Prod.fst := by
  induction l with
  | nil => simp [List.lookup] at h
  | cons p rest ih =>
    rcases p with ⟨k, w⟩
    simp only [List.lookup] at h
    cases hk : (n == k) with
    | true =>
      have hnk : n = k := eq_of_beq hk
      rw [List.map_cons]
      exact hnk ▸ List.mem_cons_self _ _
    | false =>
      simp only [hk] at h
      rw [List.map_cons]
      exact List.mem_cons_of_mem _ (ih h)

theorem connectServer_preserves_lookup (st : MCPManagerState) (m : String) (o : ConnectOutcome)
    (n : String) (v : MCPClientStub) (h : st.clients.lookup n = some v) :
    ((connectServer st m o).1).clients.lookup n = some v := by
  unfold connectServer
  split
  · exact h
  · match o with
    | .ok (raws, callB) => exact lookup_append_of_some _ _ _ _ h
    | .error e => exact h

/-- The fold inside `initializeManager` preserves existing handles. -/
theorem initFold_preserves_lookup (f : String → MCPServerConfig → ConnectOutcome) :
    ∀ (configs : List (String × MCPServerConfig)) (st : MCPManagerState) (n : String)
      (v : MCPClientStub), st.clients.lookup n = some v →
      ((configs.foldl
          (fun s p =>
            if enabledCfg p.2 then (connectServer s p.1 (f p.1 p.2)).1 else s)
          st).clients.lookup n) = some v := by
  intro configs
  induction configs with
  | nil => intro st n v h; exact h
  | cons p rest ih =>
    intro st n v h
    simp only [List.foldl_cons]
    apply ih
    split
    · exact connectServer_preserves_lookup st p.1 (f p.1 p.2) n v h
    · exact h

/-- The fold connects every enabled configuration whose spawn/handshake
succeeds, no matter what the other configurations do. -/
theorem initFold_connects (f : String → MCPServerConfig → ConnectOutcome) :
    ∀ (configs : List (String × MCPServerConfig)) (st : MCPManagerState) (n : String)
      (c : MCPServerConfig), (n, c) ∈ configs → enabledCfg c = true →
      isOkOutcome (f n c) = true →
      (((configs.foldl
          (fun s p =>
            if enabledCfg p.2 then (connectServer s p.1 (f p.1 p.2)).1 else s)
          st).clients.lookup n)).isSome = true := by
  intro configs
  induction configs with
  | nil => intro st n c h; simp at h
  | cons p rest ih =>
    intro st n c hmem hen hok
    simp only [List.foldl_cons]
    rcases List.mem_cons.mp hmem with heq | hrest
    · -- the configuration at the head is (n, c)
      have hp1 : p.1 = n := by rw [← heq]
      have hp2 : p.2 = c := by rw [← heq]
      rw [hp1, hp2, if_pos hen]
      -- after this step n is connected; the rest of the fold preserves it
      have hconn : (((connectServer st n (f n c)).1).clients.lookup n).isSome = true := by
        unfold connectServer
        split
        · assumption
        · rename_i hnone
          match ho : f n c with
          | .ok (raws, callB) =>
            have : st.clients.lookup n = none := by
              cases hl : st.clients.lookup n with
              | none => rfl
              | some w => rw [hl] at hnone; simp at hnone
            rw [lookup_append_of_none _ _ _ this]
            simp [List.lookup]
          | .error e => rw [ho] at hok; simp [isOkOutcome] at hok
      cases hl : ((connectServer st n (f n c)).1).clients.lookup n with
      | none => rw [hl] at hconn; simp at hconn
      | some w =>
        rw [initFold_preserves_lookup f rest _ n w hl]
        rfl
    · exact ih _ n c hrest hen hok

/-- C8: `initialize()` attempts a connect for every enabled server
configuration; one server's connect failure never prevents another
enabled server from ending up connected and never makes `initialize`
itself fail (it is a total function that always sets the flag);
pre-existing handles are left untouched, a second `initialize` is a
no-op, and `connectServer` on an already-connected name is a no-op. -/
theorem gateway_init_isolated_idempotent (st : MCPManagerState)
    (configs : List (String × MCPServerConfig))
    (f : String → MCPServerConfig → ConnectOutcome) :
    ((initializeManager st configs f).initialized = true)
    ∧ (st.initialized = true → initializeManager st configs f = st)
    ∧ (∀ n v, st.clients.lookup n = some v →
        (initializeManager st configs f).clients.lookup n = some v)
    ∧ (st.initialized = false →
        ∀ n c, (n, c) ∈ configs → enabledCfg c = true → isOkOutcome (f n c) = true →
          n ∈ getConnectedServers (initializeManager st configs f))
    ∧ (∀ n outcome, (st.clients.lookup n).isSome = true →
        connectServer st n outcome = (st, none)) := by
  refine ⟨?_, ?_, ?_, ?_, ?_⟩
  · unfold initializeManager
    split
    · assumption
    · rfl
  · intro h; simp [initializeManager, h]
  · intro n v h
    unfold initializeManager
    split
    · exact h
    · exact initFold_preserves_lookup f configs st n v h
  · intro hinit n c hmem hen hok
    unfold initializeManager
    rw [if_neg (by simp [hinit])]
    exact mem_keys_of_lookup_isSome _ n (initFold_connects f configs st n c hmem hen hok)
  · intro n outcome h
    unfold connectServer
    rw [if_pos h]

/-- Witness for C8: two configured servers, one with a failing spawn —
`initialize()` completes with exactly the good server connected, and
the failing one absent from `getConnectedServers()`. -/
theorem gateway_init_isolated_idempotent_witness :
    "good" ∈ getConnectedServers (initializeManager demoGateway demoConfigs demoConnect)
    ∧ getConnectedServers (initializeManager demoGateway demoConfigs demoConnect) = ["good"] :=
  ⟨(gateway_init_isolated_idempotent demoGateway demoConfigs demoConnect).2.2.2.1 rfl
      "good" ⟨"node", ["server.js"], [], none⟩ (by simp [demoConfigs]) (by decide) rfl,
    by rfl⟩

theorem splitOnNl_cons (c : Char) (rest : Str) :
    splitOnNl (c :: rest) =
      if c = '\n' then ([] :: (splitOnNl rest).1, (splitOnNl rest).2)
      else
        match (splitOnNl rest).1 with
        | [] => ([], c :: (splitOnNl rest).2)
        | l :: ls => ((c :: l) :: ls, (splitOnNl rest).2) := rfl

/-- Newline splitting distributes over concatenation: the complete
lines of `a ++ b` are those of `a` followed by those of `a`'s
remainder prepended to `b`. -/
theorem splitOnNl_append (a b : Str) :
    splitOnNl (a ++ b) =
      ((splitOnNl a).1 ++ (splitOnNl ((splitOnNl a).2 ++ b)).1,
        (splitOnNl ((splitOnNl a).2 ++ b)).2) := by
  induction a with
  | nil => simp [splitOnNl]
  | cons c rest ih =>
    show splitOnNl (c :: (rest ++ b)) = _
    rw [splitOnNl_cons, splitOnNl_cons]
    by_cases hc : c = '\n'
    · rw [if_pos hc, if_pos hc, ih]
      simp
    · rw [if_neg hc, if_neg hc, ih]
      cases hp : (splitOnNl rest).1 with
      | nil =>
        simp only [List.nil_append, List.cons_append]
        rw [splitOnNl_cons, if_neg hc]
      | cons l ls => simp

theorem processLines_append (buf : ToolBuf) (ls1 ls2 : List Str) :
    processLines buf (ls1 ++ ls2) =
      ((processLines (processLines buf ls1).1 ls2).1,
        (processLines buf ls1).2 ++ (processLines (processLines buf ls1).1 ls2).2) := by
  induction ls1 generalizing buf with
  | nil => simp [processLines]
  | cons l rest ih =>
    simp only [List.cons_append, processLines, List.append_eq]
    rw [ih]
    simp [List.append_assoc]

/-- Feeding the concatenation of two chunks is feeding them one after
the other. -/
theorem feed_append (s : SState) (a b : Str) :
    feed s (a ++ b) =
      ((feed (feed s a).1 b).1, (feed s a).2 ++ (feed (feed s a).1 b).2) := by
  simp only [feed]
  rw [← List.append_assoc, splitOnNl_append (s.buffer ++ a) b, processLines_append]

theorem feedAll_cons_join : ∀ (cs : List Str) (s : SState) (a : Str),
    feedAll s (a :: cs) = ((feed s (a ++ cs.flatten)).1, (feed s (a ++ cs.flatten)).2) := by
  intro cs
  induction cs with
  | nil => intro s a; simp [feedAll]
  | cons c rest ih =>
    intro s a
    have h1 : feedAll s (a :: c :: rest) =
        ((feedAll (feed s a).1 (c :: rest)).1,
          (feed s a).2 ++ (feedAll (feed s a).1 (c :: rest)).2) := rfl
    rw [h1, ih (feed s a).1 c,
      show (c :: rest).flatten = c ++ rest.flatten from rfl,
      feed_append s a (c ++ rest.flatten)]

/-- Feeding a chunk list from the fresh state equals feeding its
concatenation as one chunk (same final state and events). -/
theorem feedAll_single_flatten (chunks : List Str) :
    feedAll ⟨[], []⟩ chunks = feedAll ⟨[], []⟩ [chunks.flatten] := by
  cases chunks with
  | nil => rfl
  | cons a cs =>
    rw [feedAll_cons_join cs ⟨[], []⟩ a,
      show (a :: cs).flatten = a ++ cs.flatten from rfl]
    simp [feedAll]

/-- C2: the streaming parser is chunk-boundary invariant — for every
response body, every way of splitting it into (decoded) chunks,
including splits mid-line and mid-JSON-token, and either ending of the
read sequence, `chatStream` emits exactly the event sequence (and
termination) it emits when the same bytes arrive as a single chunk. -/
theorem chatStream_chunk_boundary_invariant (status : Nat) (bodyText : String)
    (chunks : List Str) (outcome : ReadEnd) :
    chatStream ⟨true, status, bodyText, some (chunks, outcome)⟩ =
      chatStream ⟨true, status, bodyText, some ([chunks.flatten], outcome)⟩ := by
  cases outcome with
  | eof =>
    show (runBody chunks, StreamTermination.normal) =
      (runBody [chunks.flatten], StreamTermination.normal)
    rw [show runBody chunks = (feedAll ⟨[], []⟩ chunks).2 ++ [.done] from rfl,
      show runBody [chunks.flatten] = (feedAll ⟨[], []⟩ [chunks.flatten]).2 ++ [.done] from rfl,
      feedAll_single_flatten]
  | failure e =>
    show ((feedAll ⟨[], []⟩ chunks).2, StreamTermination.thrown e) =
      ((feedAll ⟨[], []⟩ [chunks.flatten]).2, StreamTermination.thrown e)
    rw [feedAll_single_flatten]

theorem finalizeCalls_not_terminal (buf : ToolBuf) :
    ∀ e ∈ finalizeCalls buf, isTerminal e = false := by
  induction buf with
  | nil => intro e he; simp [finalizeCalls] at he
  | cons p rest ih =>
    intro e he
    rcases p with ⟨i, a⟩
    unfold finalizeCalls at he
    split at he
    · rcases List.mem_cons.mp he with rfl | h
      · rfl
      · exact ih e h
    · simp at he

theorem contentEvents_not_terminal (delta : Option Json) :
    ∀ e ∈ contentEvents delta, isTerminal e = false := by
  intro e he
  unfold contentEvents at he
  split at he
  · split at he
    · simp at he
    · rcases List.mem_singleton.mp he with rfl; rfl
  · simp at he

theorem finishEvents_not_terminal (c0 : Option Json) (buf : ToolBuf) :
    ∀ e ∈ finishEvents c0 buf, isTerminal e = false := by
  intro e he
  unfold finishEvents at he
  split at he
  · exact finalizeCalls_not_terminal buf e he
  · simp at he

/-- The per-frame processor never emits a terminal event. -/
theorem processParsed_not_terminal (buf : ToolBuf) (j : Json) :
    ∀ e ∈ (processParsed buf j).2, isTerminal e = false := by
  intro e he
  unfold processParsed at he
  split at he
  · split at he
    · simp at he
    · simp at he
    · dsimp only at he
      split at he
      · exact contentEvents_not_terminal _ e he
      · rcases List.mem_append.mp he with h | h
        · exact contentEvents_not_terminal _ e h
        · exact finishEvents_not_terminal _ _ e h
  · simp at he

theorem processLine_not_terminal (buf : ToolBuf) (line : Str) :
    ∀ e ∈ (processLine buf line).2, isTerminal e = false := by
  intro e he
  unfold processLine at he
  dsimp only at he
  split at he
  · simp at he
  · split at he
    · split at he
      · exact processParsed_not_terminal _ _ e he
      · simp at he
    · simp at he

theorem processLines_not_terminal (buf : ToolBuf) (ls : List Str) :
    ∀ e ∈ (processLines buf ls).2, isTerminal e = false := by
  induction ls generalizing buf with
  | nil => intro e he; simp [processLines] at he
  | cons l rest ih =>
    intro e he
    simp only [processLines] at he
    rcases List.mem_append.mp he with h | h
    · exact processLine_not_terminal _ _ e h
    · exact ih _ e h

theorem feed_not_terminal (s : SState) (chunk : Str) :
    ∀ e ∈ (feed s chunk).2, isTerminal e = false := by
  intro e he
  exact processLines_not_terminal _ _ e he

theorem feedAll_not_terminal (s : SState) (chunks : List Str) :
    ∀ e ∈ (feedAll s chunks).2, isTerminal e = false := by
  induction chunks generalizing s with
  | nil => intro e he; simp [feedAll] at he
  | cons c rest ih =>
    intro e he
    simp only [feedAll] at he
    rcases List.mem_append.mp he with h | h
    · exact feed_not_terminal _ _ e h
    · exact ih _ e h

/-- C7 counterexample: two 2xx responses that do not end in `done`.  A
response whose body is not readable produces the single event
`error "No response body"`; a readable body whose next read rejects
mid-stream ends the generator exceptionally with no terminal event at
all (here: the sentinel line was delivered, then the read failed —
zero events, exceptional termination).  Both contradict the claim that
every sequence not starting with an HTTP error ends with one `done`. -/
theorem missing_body_yields_error_not_done :
    chatStream ⟨true, 200, "", none⟩ = ([.error "No response body"], .normal)
    ∧ (chatStream ⟨true, 200, "", none⟩).1.getLast? ≠ some .done
    ∧ chatStream ⟨true, 200, "", some (["data: [DONE]\n".data], .failure "network reset")⟩ =
        ([], .thrown "network reset") := by
  refine ⟨rfl, fun h => ?_, rfl⟩
  rw [show (chatStream ⟨true, 200, "", none⟩).1.getLast? =
      some (.error "No response body") from rfl] at h
  exact StreamEvent.noConfusion (Option.some.inj h)

/-- C7 (amended): every `chatStream` event sequence is finite (a list).
A non-2xx status yields the single `error` event carrying status and
body, returning normally; a 2xx response with no readable body yields
the single `error "No response body"` event; a 2xx response whose body
is read to completion yields a sequence that ends with exactly one
`done` and no earlier terminal event; and a 2xx response whose read
sequence rejects mid-stream ends the generator exceptionally after
yielding only non-terminal events — no terminal event is produced on
that path. -/
theorem stream_single_terminal_event (r : HttpResponse) :
    (r.ok = false → chatStream r = ([.error (apiErrorMsg r)], .normal))
    ∧ (r.ok = true → r.body = none → chatStream r = ([.error "No response body"], .normal))
    ∧ (∀ chunks, r.ok = true → r.body = some (chunks, .eof) →
        ∃ evs, chatStream r = (evs ++ [.done], .normal) ∧ ∀ e ∈ evs, isTerminal e = false)
    ∧ (∀ chunks err, r.ok = true → r.body = some (chunks, .failure err) →
        chatStream r = ((feedAll ⟨[], []⟩ chunks).2, .thrown err)
          ∧ ∀ e ∈ (feedAll ⟨[], []⟩ chunks).2, isTerminal e = false) := by
  refine ⟨fun h => ?_, fun h1 h2 => ?_, fun chunks h1 h2 => ?_, fun chunks err h1 h2 => ?_⟩
  · simp [chatStream, h]
  · simp [chatStream, h1, h2]
  · exact ⟨(feedAll ⟨[], []⟩ chunks).2, by simp [chatStream, h1, h2, runBody],
      feedAll_not_terminal _ _⟩
  · exact ⟨by simp [chatStream, h1, h2], feedAll_not_terminal _ _⟩

/-- Witness for C7 (amended): a 500 response yields the single status
error event; a fully read streamed body yields a sequence ending in
one `done`; a body whose read rejects after one text frame ends
exceptionally with only that non-terminal event yielded. -/
theorem stream_single_terminal_event_witness :
    chatStream ⟨false, 500, "boom", none⟩ =
      ([.error (apiErrorMsg ⟨false, 500, "boom", none⟩)], .normal)
    ∧ (∃ evs, chatStream ⟨true, 200, "", some (["data: [DONE]\n".data], .eof)⟩ =
        (evs ++ [.done], .normal) ∧ ∀ e ∈ evs, isTerminal e = false)
    ∧ (chatStream ⟨true, 200, "",
          some (["data: \x7b\"choices\":[\x7b\"delta\":\x7b\"content\":\"hi\"\x7d\x7d]\x7d\n".data],
            .failure "connection reset")⟩ =
        ((feedAll ⟨[], []⟩
            ["data: \x7b\"choices\":[\x7b\"delta\":\x7b\"content\":\"hi\"\x7d\x7d]\x7d\n".data]).2,
          .thrown "connection reset")
      ∧ ∀ e ∈ (feedAll ⟨[], []⟩
          ["data: \x7b\"choices\":[\x7b\"delta\":\x7b\"content\":\"hi\"\x7d\x7d]\x7d\n".data]).2,
          isTerminal e = false) :=
  ⟨(stream_single_terminal_event ⟨false, 500, "boom", none⟩).1 rfl,
    (stream_single_terminal_event ⟨true, 200, "", some (["data: [DONE]\n".data], .eof)⟩).2.2.1
      ["data: [DONE]\n".data] rfl rfl,
    (stream_single_terminal_event ⟨true, 200, "",
        some (["data: \x7b\"choices\":[\x7b\"delta\":\x7b\"content\":\"hi\"\x7d\x7d]\x7d\n".data],
          .failure "connection reset")⟩).2.2.2
      ["data: \x7b\"choices\":[\x7b\"delta\":\x7b\"content\":\"hi\"\x7d\x7d]\x7d\n".data]
      "connection reset" rfl rfl⟩

theorem all_takeWhile {p : Char → Bool} (l : List Char) : (l.takeWhile p).all p = true := by
  induction l with
  | nil => rfl
  | cons c rest ih =>
    by_cases hc : p c = true
    · simp [List.takeWhile, hc, ih]
    · simp [List.takeWhile, Bool.eq_false_iff.mpr hc]

theorem takeWhile_eq_self_of_all {p : Char → Bool} (l : List Char) (h : l.all p = true) :
    l.takeWhile p = l := by
  induction l with
  | nil => rfl
  | cons c rest ih =>
    simp only [List.all_cons, Bool.and_eq_true] at h
    simp [List.takeWhile, h.1, ih h.2]

theorem dropWhile_eq_nil_of_all {p : Char → Bool} (l : List Char) (h : l.all p = true) :
    l.dropWhile p = [] := by
  induction l with
  | nil => rfl
  | cons c rest ih =>
    simp only [List.all_cons, Bool.and_eq_true] at h
    simp [List.dropWhile, h.1, ih h.2]

theorem takeWhile_concat_underscore {p : Char → Bool} (hp : p '_' = false) (t : Str) :
    ∀ s : Str, (s ++ '_' :: t).takeWhile p = s.takeWhile p := by
  intro s
  induction s with
  | nil => simp [List.takeWhile_cons, hp]
  | cons c rest ih =>
    simp only [List.cons_append, List.takeWhile_cons]
    cases hc : p c with
    | true => simp [ih]
    | false => simp
  
theorem dropWhile_concat_underscore {p : Char → Bool} (hp : p '_' = false) (t : Str) :
    ∀ s : Str, (s ++ '_' :: t).dropWhile p = s.dropWhile p ++ '_' :: t := by
  intro s
  induction s with
  | nil => simp [List.dropWhile_cons, hp]
  | cons c rest ih =>
    simp only [List.cons_append, List.dropWhile_cons]
    cases hc : p c with
    | true => simp [ih]
    | false => simp

theorem dropWhile_cons_of_contains (l : Str) (h : l.contains '_' = true) :
    ∃ s', l.dropWhile (fun c => decide (c ≠ '_')) = '_' :: s' := by
  induction l with
  | nil => simp [List.contains] at h
  | cons c rest ih =>
    by_cases hc : c = '_'
    · refine ⟨rest, ?_⟩
      rw [List.dropWhile_cons, hc]
      simp
    · have hmem : rest.contains '_' = true := by
        have : '_' ∈ c :: rest := List.elem_iff.mp h
        rcases List.mem_cons.mp this with h' | h'
        · exact absurd h'.symm hc
        · exact List.elem_iff.mpr h'
      rcases ih hmem with ⟨s', hs'⟩
      refine ⟨s', ?_⟩
      rw [List.dropWhile_cons]
      have : (decide (c ≠ '_')) = true := decide_eq_true hc
      rw [this]
      simpa using hs'

/-- `parseMcp` applied to a qualified name `mcp_<s>_<t>`, expressed
through the parts of `s` around its first underscore. -/
theorem parseMcp_qualified_eq (s t : String) :
    parseMcp ("mcp_" ++ s ++ "_" ++ t).data =
      (match s.data.takeWhile (fun c => c ≠ '_'),
             s.data.dropWhile (fun c => c ≠ '_') ++ '_' :: t.data with
        | [], _ => none
        | _, '_' :: rest =>
          if rest ≠ [] ∧ rest.all isDotClassChar then
            some (s.data.takeWhile (fun c => c ≠ '_'), rest)
          else none
        | _, _ => none) := by
  have hdata : ("mcp_" ++ s ++ "_" ++ t).data =
      'm' :: 'c' :: 'p' :: '_' :: (s.data ++ '_' :: t.data) := by
    simp [String.data_append]
  rw [hdata]
  show (let sv := (s.data ++ '_' :: t.data).takeWhile (fun c => c ≠ '_')
    match sv, (s.data ++ '_' :: t.data).dropWhile (fun c => c ≠ '_') with
    | [], _ => none
    | _, '_' :: tl =>
      if tl ≠ [] ∧ tl.all isDotClassChar then some (sv, tl) else none
    | _, _ => none) = _
  rw [takeWhile_concat_underscore (by decide) t.data s.data,
    dropWhile_concat_underscore (by decide) t.data s.data]

theorem string_data_eq_nil_iff (s : String) : s.data = [] ↔ s = "" :=
  ⟨fun h => congrArg String.mk h, fun h => h ▸ rfl⟩

theorem not_contains_of_all_ne (l : Str) (h : l.all (fun c => decide (c ≠ '_')) = true) :
    l.contains '_' = false := by
  cases hc : l.contains '_' with
  | false => rfl
  | true =>
    have hmem : '_' ∈ l := List.elem_iff.mp hc
    have := List.all_eq_true.mp h _ hmem
    simp at this

/-- C9 counterexample: the claim's round-trip characterisation fails
for an empty tool name and for an empty server name even though both
server names are underscore-free, and `callTool` on a qualified tool of
the connected underscore-named server `"a_b"` does not return the
server-not-connected error — it is silently routed to the connected
server `"a"` (which answers `"hello"`). -/
theorem qualify_parse_counterexample :
    parseMcp ((qualifyTool "a" ⟨"", none, Json.null⟩).name).data = none
    ∧ parseMcp ((qualifyTool "" ⟨"x", none, Json.null⟩).name).data = none
    ∧ callTool underscoreState (qualifyTool "a_b" ⟨"t", none, Json.null⟩).name (Json.jobj [])
        = "hello"
    ∧ ("hello" : String) ≠ "MCP server not connected: a_b" :=
  ⟨rfl, rfl, rfl, by decide⟩

/-- C9 (amended): qualify-then-parse recovers `(s, t)` exactly when the
server name is non-empty and underscore-free and the tool name is
non-empty and free of line terminators; a connected server whose name
contains an underscore is itself never the routing target: provided the
name's segments avoid line terminators and the pre-underscore prefix is
non-empty, the parsed server is that proper prefix, and when no server
of that prefix name is connected `callTool` returns the
server-not-connected error naming the prefix. -/
theorem qualify_parse_roundtrip_spec :
    (∀ s t : String,
      parseMcp ((qualifyTool s ⟨t, none, Json.null⟩).name).data = some (s.data, t.data) ↔
        (s ≠ "" ∧ s.data.all (fun c => c ≠ '_') = true ∧ t ≠ ""
          ∧ t.data.all isDotClassChar = true))
    ∧ (∀ (st : MCPManagerState) (s t : String) (args : Json),
        s.data.contains '_' = true →
        s.data.all isDotClassChar = true → t.data.all isDotClassChar = true →
        serverPart s ≠ [] →
        (String.mk (serverPart s) ≠ s
          ∧ (st.clients.lookup (String.mk (serverPart s)) = none →
              callTool st (qualifyTool s ⟨t, none, Json.null⟩).name args =
                "MCP server not connected: " ++ String.mk (serverPart s)))) := by
  constructor
  · intro s t
    rw [show (qualifyTool s ⟨t, none, Json.null⟩).name = "mcp_" ++ s ++ "_" ++ t from rfl,
      parseMcp_qualified_eq s t]
    constructor
    · intro h
      by_cases hall : s.data.all (fun c => decide (c ≠ '_')) = true
      · rw [takeWhile_eq_self_of_all _ hall, dropWhile_eq_nil_of_all _ hall] at h
        cases hsd : s.data with
        | nil => rw [hsd] at h; simp at h
        | cons c cs =>
          rw [hsd] at h
          simp only [List.nil_append] at h
          split at h
          · rename_i hguard
            refine ⟨?_, hsd ▸ hall, ?_, hguard.2⟩
            · intro he; rw [he] at hsd; simp at hsd
            · intro he
              exact hguard.1 ((string_data_eq_nil_iff t).mpr he)
          · simp at h
      · -- s contains an underscore: the parsed pair can never be (s, t)
        exfalso
        have hcont : s.data.contains '_' = true := by
          have hfalse : s.data.all (fun c => decide (c ≠ '_')) = false :=
            Bool.eq_false_iff.mpr hall
          rcases List.all_eq_false.mp hfalse with ⟨c, hcmem, hcp⟩
          have hcu : c = '_' := by
            by_contra hne
            simp [hne] at hcp
          exact List.elem_iff.mpr (hcu ▸ hcmem)
        rcases dropWhile_cons_of_contains s.data hcont with ⟨s', hs'⟩
        rw [hs'] at h
        cases htw : s.data.takeWhile (fun c => c ≠ '_') with
        | nil => rw [htw] at h; simp at h
        | cons c cs =>
          rw [htw] at h
          simp only [List.cons_append] at h
          split at h
          · have hsnd := congrArg Prod.snd (Option.some.inj h)
            have hlen := congrArg List.length hsnd
            simp at hlen
            omega
          · exact Option.noConfusion h
    · rintro ⟨hs, hall, ht, htd⟩
      rw [takeWhile_eq_self_of_all _ hall, dropWhile_eq_nil_of_all _ hall]
      rcases List.exists_cons_of_ne_nil
          (fun h => hs ((string_data_eq_nil_iff s).mp h)) with ⟨c, cs, hcs⟩
      rw [hcs]
      simp only [List.nil_append]
      rw [if_pos ⟨fun h => ht ((string_data_eq_nil_iff t).mp h), htd⟩]
  · intro st s t args hcont hsdot htdot hp
    rcases dropWhile_cons_of_contains s.data hcont with ⟨s', hs'⟩
    have hq : parseMcp ("mcp_" ++ s ++ "_" ++ t).data =
        some (serverPart s, s' ++ '_' :: t.data) := by
      rw [parseMcp_qualified_eq s t, hs',
        show serverPart s = s.data.takeWhile (fun c => c ≠ '_') from rfl]
      have hp' : s.data.takeWhile (fun c => c ≠ '_') ≠ [] := hp
      rcases List.exists_cons_of_ne_nil hp' with ⟨c, cs, hcs⟩
      rw [hcs]
      simp only [List.cons_append]
      rw [if_pos ?_]
      constructor
      · simp
      · -- every character of s' ++ '_' :: t.data avoids line terminators
        have hsplit : s.data.takeWhile (fun c => c ≠ '_') ++ '_' :: s' = s.data := by
          rw [← hs', List.takeWhile_append_dropWhile]
        have : (s.data.takeWhile (fun c => c ≠ '_') ++ '_' :: s').all isDotClassChar = true := by
          rw [hsplit]; exact hsdot
        rw [List.all_append, Bool.and_eq_true, List.all_cons, Bool.and_eq_true] at this
        rw [List.all_append, Bool.and_eq_true, List.all_cons, Bool.and_eq_true]
        exact ⟨this.2.2, by decide, htdot⟩
    constructor
    · intro he
      have hdata : serverPart s = s.data := congrArg String.data he
      have hall : s.data.all (fun c => decide (c ≠ '_')) = true := by
        rw [← hdata]; exact all_takeWhile _
      rw [not_contains_of_all_ne _ hall] at hcont
      exact Bool.noConfusion hcont
    · intro hlookup
      rw [show (qualifyTool s ⟨t, none, Json.null⟩).name = "mcp_" ++ s ++ "_" ++ t from rfl]
      unfold callTool
      rw [hq]
      simp only [hlookup]

/-- Witness for C9 (amended): `mcp_srv_do_it` round-trips, while for
the underscore-named server `a_b` the parsed server is the proper
prefix `a`, and with no server `a` connected the call returns the
not-connected error naming `a`. -/
theorem qualify_parse_roundtrip_spec_witness :
    parseMcp ((qualifyTool "srv" ⟨"do_it", none, Json.null⟩).name).data
        = some ("srv".data, "do_it".data)
    ∧ String.mk (serverPart "a_b") ≠ "a_b"
    ∧ callTool ⟨[], false⟩ (qualifyTool "a_b" ⟨"t", none, Json.null⟩).name (Json.jobj [])
        = "MCP server not connected: " ++ String.mk (serverPart "a_b") :=
  ⟨(qualify_parse_roundtrip_spec.1 "srv" "do_it").mpr
      ⟨by decide, by decide, by decide, by decide⟩,
    (qualify_parse_roundtrip_spec.2 ⟨[], false⟩ "a_b" "t" (Json.jobj [])
      (by decide) (by decide) (by decide) (by decide)).1,
    (qualify_parse_roundtrip_spec.2 ⟨[], false⟩ "a_b" "t" (Json.jobj [])
      (by decide) (by decide) (by decide) (by decide)).2 rfl⟩

/-- Processing a frame that introduces an id for a fresh slot
(re)initializes the slot's accumulator, discarding nothing yet: the
stored arguments are exactly that frame's fragment (or `""`). -/
theorem processParsed_assign (buf : ToolBuf) (lex : String) (n : Nat)
    (hIdx : natOfDigits? lex.data = some n) (hnone : lookupBuf buf n = none)
    (idv nm : String) (hid : idv ≠ "") (a0 : Option String) :
    processParsed buf (mkTCFrame lex (some idv) (some nm) a0) =
      (setBuf buf n ⟨idv, nm, a0.getD ""⟩, []) := by
  by_cases hnm : nm = "" <;> cases a0 <;>
    simp [processParsed, mkTCFrame, mkTCDelta, jget, lookupLast, jindex0, optChain,
      contentEvents, finishEvents, tcStep, procDeltas, procDelta, jnatIdx?, hIdx, hnone,
      hid, hnm, asStr]

/-- Processing an id-less frame for an already-assigned slot appends
its fragment (or nothing) to the accumulator. -/
theorem processParsed_append_singleton (lex : String) (n : Nat)
    (hIdx : natOfDigits? lex.data = some n) (acc : ToolCallAcc) (a : Option String) :
    processParsed [(n, acc)] (mkTCFrame lex none none a) =
      ([(n, { acc with args := acc.args ++ a.getD "" })], []) := by
  cases a with
  | none =>
    simp [processParsed, mkTCFrame, mkTCDelta, jget, lookupLast, jindex0, optChain,
      contentEvents, finishEvents, tcStep, procDeltas, procDelta, jnatIdx?, hIdx, asStr,
      lookupBuf]
  | some s =>
    by_cases hs : s = "" <;>
      simp [processParsed, mkTCFrame, mkTCDelta, jget, lookupLast, jindex0, optChain,
        contentEvents, finishEvents, tcStep, procDeltas, procDelta, jnatIdx?, hIdx, asStr,
        lookupBuf, appendArgs, hs]

/-- The finish frame finalizes the current buffer and leaves it
untouched. -/
theorem processParsed_finish (buf : ToolBuf) :
    processParsed buf mkFinishFrame = (buf, finalizeCalls buf) := rfl

theorem catFrags_cons (a : Option String) (rest : List (Option String)) :
    catFrags (a :: rest) = a.getD "" ++ catFrags rest := rfl

/-- Folding the remaining argument-fragment frames after the slot was
assigned: the accumulator ends with the concatenation of all fragments
appended, and the finish frame emits its finalization. -/
theorem processFrames_frags (lex : String) (n : Nat) (hIdx : natOfDigits? lex.data = some n) :
    ∀ (rest : List (Option String)) (acc : ToolCallAcc),
      processFrames [(n, acc)]
          (rest.map (fun a => mkTCFrame lex none none a) ++ [mkFinishFrame]) =
        ([(n, { acc with args := acc.args ++ catFrags rest })],
          finalizeCalls [(n, { acc with args := acc.args ++ catFrags rest })]) := by
  intro rest
  induction rest with
  | nil =>
    intro acc
    simp only [List.map_nil, List.nil_append, processFrames, processParsed_finish]
    simp [catFrags]
  | cons a rest ih =>
    intro acc
    simp only [List.map_cons, List.cons_append, processFrames, List.append_eq]
    rw [processParsed_append_singleton lex n hIdx acc a, ih]
    simp [catFrags_cons, String.append_assoc]

/-- C1 counterexample: for the slot-0 frame sequence in which a second
frame re-introduces an id (fragments `{"a"`, —, `:1}`), the
concatenation of all delivered fragments parses as the JSON object
`{"a":1}`, yet the run finalizes no toolCall event at all (the
re-initialization discarded the first fragment, leaving the unparsable
text `:1}`) — the finalized arguments are not the parsed concatenation. -/
theorem toolcall_args_reinit_counterexample :
    (processFrames [] reinitFrames).2 = []
    ∧ jparse (catFrags [some "\x7b\"a\"", none, some ":1\x7d"]).data =
        some (.jobj [("a", .jnum "1")]) :=
  ⟨rfl, rfl⟩

/-- C1 (amended): for every sequence of tool-call delta frames for one
slot in which the slot's id is introduced exactly once, by the first
frame (subsequent frames carry no id), the slot's accumulated argument
text is the concatenation of all delivered fragments: when that text
parses as JSON the finalized toolCall event carries exactly the parsed
value, when all fragments are empty or absent it carries the empty
object `{}`, and when the text fails to parse no event is emitted. -/
theorem toolcall_args_accumulate_concat (lex : String) (n : Nat)
    (hIdx : natOfDigits? lex.data = some n) (idv nm : String) (hid : idv ≠ "")
    (a0 : Option String) (rest : List (Option String)) :
    (processFrames []
        (mkTCFrame lex (some idv) (some nm) a0 ::
          (rest.map (fun a => mkTCFrame lex none none a) ++ [mkFinishFrame]))).2 =
      (if catFrags (a0 :: rest) = "" then [StreamEvent.toolCall idv nm (Json.jobj [])]
       else
        match jparse (catFrags (a0 :: rest)).data with
        | some v => [StreamEvent.toolCall idv nm v]
        | none => []) := by
  have h1 := processParsed_assign [] lex n hIdx rfl idv nm hid a0
  simp only [processFrames, h1]
  rw [show setBuf [] n ⟨idv, nm, a0.getD ""⟩ = [(n, ⟨idv, nm, a0.getD ""⟩)] from rfl,
    processFrames_frags lex n hIdx rest ⟨idv, nm, a0.getD ""⟩]
  simp only [List.nil_append]
  rw [show ({ id := idv, name := nm, args := (⟨idv, nm, a0.getD ""⟩ : ToolCallAcc).args
      ++ catFrags rest } : ToolCallAcc) =
    ⟨idv, nm, catFrags (a0 :: rest)⟩ from by rw [catFrags_cons]]
  unfold finalizeCalls
  by_cases hcat : catFrags (a0 :: rest) = ""
  · rw [if_pos hcat]
    simp only [hcat, if_pos rfl]
    rw [show jparse "\x7b\x7d".data = some (.jobj []) from rfl]
    rfl
  · rw [if_neg hcat]
    simp only [if_neg hcat]
    cases jparse (catFrags (a0 :: rest)).data <;> rfl

/-- Witness for C1 (amended): the spec's §8 scenario — fragments
`{"pa` and `th":"a.txt"}` for slot 0 — finalizes to one toolCall with
arguments `{"path":"a.txt"}`. -/
theorem toolcall_args_accumulate_concat_witness :
    (processFrames []
        (mkTCFrame "0" (some "c1") (some "read_file") (some "\x7b\"pa") ::
          ([some "th\":\"a.txt\"\x7d"].map (fun a => mkTCFrame "0" none none a)
            ++ [mkFinishFrame]))).2 =
      [StreamEvent.toolCall "c1" "read_file" (Json.jobj [("path", Json.jstr "a.txt")])] :=
  (toolcall_args_accumulate_concat "0" 0 rfl "c1" "read_file" (by decide)
      (some "\x7b\"pa") [some "th\":\"a.txt\"\x7d"]).trans (by rfl)

/-- C3 counterexample: a stream whose frames assign slot 1 (id `"b"`)
before slot 0 (id `"a"`) emits the slot-1 call first — `Map` iteration
is insertion order, not ascending slot-index order. -/
theorem toolcalls_not_ascending_counterexample :
    chatStream ⟨true, 200, "", some ([outOfOrderBody], .eof)⟩ =
      ([.toolCall "b" "beta" (.jobj []), .toolCall "a" "alpha" (.jobj []), .done], .normal)
    ∧ toolCallIds (chatStream ⟨true, 200, "", some ([outOfOrderBody], .eof)⟩).1 ≠ ["a", "b"] :=
  ⟨rfl, by decide⟩

/-- C3 (amended): on the `tool_calls` finish reason the buffered slots
are finalized one event per populated slot in the order the slots were
first assigned (JS `Map` insertion order) — for any two distinct slots
this is assignment order regardless of their numeric relation, and it
coincides with ascending slot-index order exactly when slots were
assigned in ascending order. -/
theorem toolcalls_emitted_in_assignment_order (lexA lexB : String) (na nb : Nat)
    (hA : natOfDigits? lexA.data = some na) (hB : natOfDigits? lexB.data = some nb)
    (hne : na ≠ nb) (ida idb nma nmb : String) (hida : ida ≠ "") (hidb : idb ≠ "") :
    (processFrames [] [mkTCFrame lexB (some idb) (some nmb) none,
        mkTCFrame lexA (some ida) (some nma) none, mkFinishFrame]).2 =
      [StreamEvent.toolCall idb nmb (Json.jobj []),
        StreamEvent.toolCall ida nma (Json.jobj [])] := by
  have hlook : lookupBuf [(nb, (⟨idb, nmb, ""⟩ : ToolCallAcc))] na = none := by
    simp [lookupBuf, hne]
  have h1 : processParsed [] (mkTCFrame lexB (some idb) (some nmb) none) =
      ([(nb, ⟨idb, nmb, ""⟩)], []) := by
    rw [processParsed_assign [] lexB nb hB rfl idb nmb hidb none]
    rfl
  have h2 : processParsed [(nb, ⟨idb, nmb, ""⟩)] (mkTCFrame lexA (some ida) (some nma) none) =
      ([(nb, ⟨idb, nmb, ""⟩), (na, ⟨ida, nma, ""⟩)], []) := by
    rw [processParsed_assign _ lexA na hA hlook ida nma hida none]
    simp [setBuf, hne]
  simp only [processFrames, h1, h2, processParsed_finish]
  rfl

/-- Witness for C3 (amended): slots `"1"` then `"0"` — the finalized
events follow assignment order (`idb` from slot 1 first). -/
theorem toolcalls_emitted_in_assignment_order_witness :
    (processFrames [] [mkTCFrame "1" (some "b") (some "beta") none,
        mkTCFrame "0" (some "a") (some "alpha") none, mkFinishFrame]).2 =
      [StreamEvent.toolCall "b" "beta" (Json.jobj []),
        StreamEvent.toolCall "a" "alpha" (Json.jobj [])] :=
  toolcalls_emitted_in_assignment_order "0" "1" 0 1 rfl rfl (by decide)
    "a" "b" "alpha" "beta" (by decide) (by decide)

/-- Whatever the model and the tools do, the loop only ever appends
well-threaded blocks to the history it sends to the model. -/
theorem runLoopAux_blocks (behavior : ModelBehavior) (yolo : Bool) (gw : MCPManagerState)
    (bexec : String → Json → BuiltinResult) :
    ∀ (fuel : Nat) (msgs : List AIMessage),
      ∃ tail, (runLoopAux behavior yolo gw bexec fuel msgs).1 = msgs ++ tail
        ∧ ThreadedBlocks tail := by
  intro fuel
  induction fuel with
  | zero => intro msgs; exact ⟨[], by simp [runLoopAux], ThreadedBlocks.nil⟩
  | succ n ih =>
    intro msgs
    simp only [runLoopAux]
    split
    · rcases ih (msgs ++
          mkAssistantMsg (consumeStream yolo gw bexec ⟨"", [], false, none⟩ (behavior msgs)).fullText
              (consumeStream yolo gw bexec ⟨"", [], false, none⟩ (behavior msgs)).results ::
            (consumeStream yolo gw bexec ⟨"", [], false, none⟩ (behavior msgs)).results.map
              mkToolMsg) with
        ⟨tail, h1, h2⟩
      refine ⟨mkAssistantMsg (consumeStream yolo gw bexec ⟨"", [], false, none⟩
            (behavior msgs)).fullText
          (consumeStream yolo gw bexec ⟨"", [], false, none⟩ (behavior msgs)).results ::
          (consumeStream yolo gw bexec ⟨"", [], false, none⟩ (behavior msgs)).results.map
            mkToolMsg ++ tail, ?_, ?_⟩
      · rw [h1]; simp
      · exact ThreadedBlocks.block _ _ tail h2
    · exact ⟨[], by simp, ThreadedBlocks.nil⟩

/-- Inside a well-threaded block list, every tool message's
`toolCallId` names a call of the nearest preceding assistant message,
and only tool messages separate the two. -/
theorem blocks_threading (tail : List AIMessage) (hb : ThreadedBlocks tail) :
    ∀ (i : Nat) (m : AIMessage), tail[i]? = some m → m.role = .tool →
      ∃ (j : Nat) (a : AIMessage), j < i ∧ tail[j]? = some a ∧ a.role = .assistant
        ∧ (∀ (k : Nat) (mk : AIMessage), j < k → k < i → tail[k]? = some mk → mk.role = .tool)
        ∧ ∃ tc ∈ a.toolCalls, m.toolCallId = some tc.id := by
  induction hb with
  | nil => intro i m hm _; simp at hm
  | block text results rest hrest ih =>
    intro i m hm hrole
    by_cases hi : i < 1 + results.length
    · cases i with
      | zero =>
        have hm0 : mkAssistantMsg text results = m := by simpa using hm
        rw [← hm0] at hrole
        simp [mkAssistantMsg] at hrole
      | succ i' =>
        have hi' : i' < results.length := by omega
        have hi'' : i' < (results.map mkToolMsg).length := by simpa using hi'
        have hm' : (results.map mkToolMsg ++ rest)[i']? = some m := by
          simpa using hm
        rw [List.getElem?_append_left hi'', List.getElem?_map] at hm'
        refine ⟨0, mkAssistantMsg text results, Nat.succ_pos i',
          List.getElem?_cons_zero, rfl, ?_, ?_⟩
        · intro k mk hk0 hki hmk
          cases k with
          | zero => omega
          | succ k' =>
            have hk' : k' < results.length := by omega
            have hk'' : k' < (results.map mkToolMsg).length := by simpa using hk'
            have hmk' : (results.map mkToolMsg ++ rest)[k']? = some mk := by
              simpa using hmk
            rw [List.getElem?_append_left hk'', List.getElem?_map] at hmk'
            cases hr : results[k']? with
            | none => rw [hr] at hmk'; exact Option.noConfusion hmk'
            | some r =>
              rw [hr] at hmk'
              rw [← Option.some.inj hmk']
              rfl
        · cases hr : results[i']? with
          | none => rw [hr] at hm'; exact Option.noConfusion hm'
          | some r =>
            rw [hr] at hm'
            refine ⟨⟨r.id, r.name, r.arguments⟩, ?_, ?_⟩
            · exact List.mem_map_of_mem _ (List.getElem?_mem hr)
            · rw [← Option.some.inj hm']; rfl
    · -- the index lies in the remaining blocks
      have hge : 1 + results.length ≤ i := by omega
      have hshift : ∀ x (hx : 1 + results.length ≤ x),
          (mkAssistantMsg text results :: results.map mkToolMsg ++ rest)[x]? =
            rest[x - (1 + results.length)]? := by
        intro x hx
        cases x with
        | zero => omega
        | succ x' =>
          have h1 : (mkAssistantMsg text results :: results.map mkToolMsg ++ rest)[x' + 1]? =
              (results.map mkToolMsg ++ rest)[x']? :=
            List.getElem?_cons_succ
          rw [h1, List.getElem?_append_right (by simp; omega)]
          congr 1
          simp
          omega
      rw [hshift i hge] at hm
      rcases ih (i - (1 + results.length)) m hm hrole with
        ⟨j', a, hji, hja, harole, hbetween, hid⟩
      refine ⟨j' + (1 + results.length), a, by omega, ?_, harole, ?_, hid⟩
      · rw [hshift (j' + (1 + results.length)) (by omega)]
        simpa using hja
      · intro k mk hkl hkr hmk
        have hkge : 1 + results.length ≤ k := by omega
        rw [hshift k hkge] at hmk
        exact hbetween (k - (1 + results.length)) mk (by omega) (by omega) hmk

/-- C4: whenever the orchestration loop appends a `tool` message to the
history it sends to the model, that message's `toolCallId` equals the
id of one of the `toolCalls` carried by the immediately preceding
`assistant` message appended in the same round (no other role
intervenes between them). -/
theorem tool_messages_match_preceding_assistant (behavior : ModelBehavior) (yolo : Bool)
    (gw : MCPManagerState) (bexec : String → Json → BuiltinResult) (msgs : List AIMessage)
    (i : Nat) (m : AIMessage)
    (hi : msgs.length ≤ i)
    (hm : ((runLoop behavior yolo gw bexec msgs).1)[i]? = some m)
    (hrole : m.role = .tool) :
    ∃ (j : Nat) (a : AIMessage), msgs.length ≤ j ∧ j < i
      ∧ ((runLoop behavior yolo gw bexec msgs).1)[j]? = some a ∧ a.role = .assistant
      ∧ (∀ (k : Nat) (mk : AIMessage), j < k → k < i →
          ((runLoop behavior yolo gw bexec msgs).1)[k]? = some mk → mk.role = .tool)
      ∧ ∃ tc ∈ a.toolCalls, m.toolCallId = some tc.id := by
  rcases runLoopAux_blocks behavior yolo gw bexec 10 msgs with ⟨tail, heq, hblocks⟩
  have heq' : (runLoop behavior yolo gw bexec msgs).1 = msgs ++ tail := heq
  rw [heq'] at hm
  rw [List.getElem?_append_right hi] at hm
  rcases blocks_threading tail hblocks (i - msgs.length) m hm hrole with
    ⟨j', a, hji, hja, harole, hbetween, hid⟩
  refine ⟨j' + msgs.length, a, by omega, by omega, ?_, harole, ?_, hid⟩
  · rw [heq', List.getElem?_append_right (by omega)]
    simpa using hja
  · intro k mk hkl hkr hmk
    rw [heq', List.getElem?_append_right (by omega)] at hmk
    exact hbetween (k - msgs.length) mk (by omega) (by omega) hmk

/-- Witness for C4: a model that requests one `read_file` call — the
appended tool message at index 2 references the assistant message at
index 1, whose tool call list carries its id. -/
theorem tool_messages_match_preceding_assistant_witness :
    ∃ (j : Nat) (a : AIMessage), demoInit.length ≤ j ∧ j < 2
      ∧ ((runLoop demoBehavior true demoGateway demoExec demoInit).1)[j]? = some a
      ∧ a.role = .assistant
      ∧ (∀ (k : Nat) (mk : AIMessage), j < k → k < 2 →
          ((runLoop demoBehavior true demoGateway demoExec demoInit).1)[k]? = some mk →
          mk.role = .tool)
      ∧ ∃ tc ∈ a.toolCalls,
          (AIMessage.mk .tool "out" (some "t1") []).toolCallId = some tc.id :=
  tool_messages_match_preceding_assistant demoBehavior true demoGateway demoExec demoInit
    2 (AIMessage.mk .tool "out" (some "t1") []) (by decide) (by rfl) rfl

end Zesbe
